import Mathlib

/-
Shallow embedding of the arena allocator in `arena.h` (single C header):
block chaining, alignment arithmetic, allocation, mark/release, reset and
accounting.

Modelling conventions:
* Addresses (`uintptr_t`) are naturals; every address computation of the
  source is performed modulo `U = 2 ^ 64`, and the source's explicit
  overflow checks against `UINTPTR_MAX` / `SIZE_MAX` are reproduced
  literally.
* The accounting counters (`reserved`, block `offset`, the `bytes_used`
  sum) are modelled as unbounded naturals: in any execution of the source
  on a machine whose live allocations fit in the address space these
  counters never exceed `SIZE_MAX`, and the subtractions performed by
  `reset`/`release` never underflow in states satisfying the reserved
  invariant proved below.
* `malloc` is modelled by an oracle: a list of successive results, `none`
  for an allocation failure and `some b` for a fresh block whose `data`
  array starts at address `b`.  An exhausted oracle behaves like a failing
  `malloc`.  Pointer identity of blocks is modelled by a fresh `id` drawn
  from a counter, mirroring the fact that distinct live `malloc` results
  are distinct.
* Block memory contents are not modelled; `memset` (in `arena_zalloc_align`)
  and `memcpy` (in `arena_strdup`) write through the returned pointer into
  caller-visible memory and do not change any allocator state.
-/

namespace ArenaModel

/-- `2 ^ 64`, one past the largest `uintptr_t`/`size_t` value (LP64). -/
def U : Nat := 2 ^ 64

/-- `SIZE_MAX` on the modelled platform. -/
def SIZE_MAX : Nat := U - 1

/-- `UINTPTR_MAX` on the modelled platform. -/
def UINTPTR_MAX : Nat := U - 1

/-- `_Alignof(max_align_t)` on the modelled platform (LP64). -/
def MAX_ALIGN : Nat := 16

/-- `sizeof(ArenaBlock)`: header of `prev`, `capacity`, `offset` (LP64). -/
def HDR : Nat := 24

/-- Wrapping `uintptr_t` subtraction `x - y` for `y < U`. -/
def usub (x y : Nat) : Nat := (x + (U - y % U)) % U

/-- One `ArenaBlock`: `id` models the pointer identity of the `malloc`ed
block, `base` the address of its `data[]` buffer.  The `prev` link of the
source is represented by the position in the arena's block list. -/
structure ArenaBlock where
  id : Nat
  base : Nat
  capacity : Nat
  offset : Nat
deriving Repr, DecidableEq

/-- The `Arena` struct.  `blocks` lists the chain from `current` (head)
through the `prev` links; the empty list models `current == NULL`. -/
structure Arena where
  blocks : List ArenaBlock
  default_block_size : Nat
  reserved : Nat
deriving Repr, DecidableEq

/-- An `ArenaMark`: `block` is the identity of the marked block
(`none` models a `NULL` block pointer). -/
structure ArenaMark where
  block : Option Nat
  offset : Nat
deriving Repr, DecidableEq

/-- Arena together with the modelled allocation environment: the fresh-id
counter and the remaining `malloc` oracle. -/
structure ASt where
  arena : Arena
  nextId : Nat
  oracle : List (Option Nat)
deriving Repr, DecidableEq

/-- `arena__align_up_ptr`: bump `p` up by `align - p % align`
(`align = 0` selects `_Alignof(max_align_t)`); returns `0` on overflow. -/
def arena__align_up_ptr (p align : Nat) : Nat :=
  let al := if align = 0 then MAX_ALIGN else align
  let rem := p % al
  let add := al - rem
  if UINTPTR_MAX - add < p then 0 else p + add

/-- `arena__max`. -/
def arena__max (a b : Nat) : Nat := if b < a then a else b

/-- `arena__new_block`: zero capacity is promoted to `1`, the total
`malloc` size is checked against `SIZE_MAX`, then the next oracle entry
decides the `malloc` outcome. -/
def arena__new_block (capacity nid : Nat) (oracle : List (Option Nat)) :
    Option ArenaBlock × List (Option Nat) :=
  let c := if capacity = 0 then 1 else capacity
  if SIZE_MAX - HDR < c then (none, oracle)
  else
    match oracle with
    | [] => (none, [])
    | none :: rest => (none, rest)
    | some b :: rest => (some ⟨nid, b % U, c, 0⟩, rest)

/-- `arena_init`: installs a single fresh block (or none on failure),
stores the nonzero-ized size hint and the reserved total. -/
def arena_init (ibs : Nat) (st : ASt) : ASt :=
  match arena__new_block ibs st.nextId st.oracle with
  | (some b, rest) =>
      ⟨⟨[b], if ibs = 0 then 1 else ibs, b.capacity⟩, st.nextId + 1, rest⟩
  | (none, rest) =>
      ⟨⟨[], if ibs = 0 then 1 else ibs, 0⟩, st.nextId, rest⟩

/-- `arena_destroy`: frees the whole chain and zeroes all fields. -/
def arena_destroy (st : ASt) : ASt := ⟨⟨[], 0, 0⟩, st.nextId, st.oracle⟩

/-- Outcome of one iteration of the `for (;;)` loop of
`arena_alloc_align`, before any `malloc`:
`fail` — return `NULL` with no state change (alignment overflow,
`size + (align - 1)` overflow, or the new block's `malloc` size check);
`fit` — the request fits the current block at `aligned_off`;
`grow` — `malloc` a new block of `c` bytes and retry with size `size2`. -/
inductive LoopStep where
  | fail
  | fit (aligned aligned_off : Nat)
  | grow (size2 c : Nat)
deriving Repr, DecidableEq

/-- The body of one iteration of the `for (;;)` loop of
`arena_alloc_align` against current block `b` (default block size `d`).
The line `size_t min_needed = size = (align ? (align - 1) : 0);` of the
source assigns to `size`, so a `grow` step carries `size2`, the
overwritten size, for the retry.  The zero-capacity promotion and the
`SIZE_MAX` check of `arena__new_block` precede its `malloc`, so they are
decided here. -/
def loopStep (size align d : Nat) (b : ArenaBlock) : LoopStep :=
  let base := (b.base + b.offset) % U
  let aligned := arena__align_up_ptr base align
  if aligned = 0 then .fail
  else
    let aligned_off := usub aligned b.base
    if aligned_off ≤ b.capacity ∧ size ≤ b.capacity - aligned_off then
      .fit aligned aligned_off
    else if align ≠ 0 ∧ SIZE_MAX - (align - 1) < size then .fail
    else
      let size2 := if align ≠ 0 then align - 1 else 0
      let cap := arena__max d size2
      let c := if cap = 0 then 1 else cap
      if SIZE_MAX - HDR < c then .fail
      else .grow size2 c

/-- The `for (;;)` retry loop of `arena_alloc_align`.  The `malloc` of
`arena__new_block` consumes the next oracle entry; the recursion is
structural in the oracle, so the loop (which the source lets run
unboundedly) ends at the latest when the oracle — the supply of `malloc`
results — is exhausted.  The top-level case split is on the oracle (the
branches not reaching `malloc` simply return it untouched, exactly as in
the source); a `grow` step on an exhausted oracle is a failing `malloc`. -/
def allocLoop (size align : Nat) (a : Arena) (nid : Nat) :
    List (Option Nat) → Option Nat × Arena × Nat × List (Option Nat)
  | [] =>
    match a.blocks with
    | [] => (none, a, nid, [])
    | b :: rest =>
      match loopStep size align a.default_block_size b with
      | .fail => (none, a, nid, [])
      | .fit aligned aligned_off =>
        (some aligned,
         ⟨{ b with offset := aligned_off + size } :: rest,
           a.default_block_size, a.reserved⟩, nid, [])
      | .grow _ _ => (none, a, nid, [])
  | mo :: orest =>
    match a.blocks with
    | [] => (none, a, nid, mo :: orest)
    | b :: rest =>
      match loopStep size align a.default_block_size b with
      | .fail => (none, a, nid, mo :: orest)
      | .fit aligned aligned_off =>
        (some aligned,
         ⟨{ b with offset := aligned_off + size } :: rest,
           a.default_block_size, a.reserved⟩, nid, mo :: orest)
      | .grow size2 c =>
        match mo with
        | none => (none, a, nid, orest)
        | some bb =>
          let nb : ArenaBlock := ⟨nid, bb % U, c, 0⟩
          allocLoop size2 align
            ⟨nb :: a.blocks, a.default_block_size,
              a.reserved + nb.capacity⟩ (nid + 1) orest

/-- `arena_alloc_align`: zero size is a no-op returning `NULL`; an empty
chain triggers `arena_init` with `max(default_block_size, size + align)`
(computed in `size_t`); then the retry loop runs. -/
def arena_alloc_align (size align : Nat) (st : ASt) : Option Nat × ASt :=
  if size = 0 then (none, st)
  else
    let st1 :=
      if st.arena.blocks.isEmpty then
        arena_init
          (arena__max st.arena.default_block_size
            ((size + (if align = 0 then 0 else align)) % U)) st
      else st
    if st1.arena.blocks.isEmpty then (none, st1)
    else
      match allocLoop size align st1.arena st1.nextId st1.oracle with
      | (p, a2, nid2, o2) => (p, ⟨a2, nid2, o2⟩)

/-- `arena_alloc`: maximal natural alignment. -/
def arena_alloc (size : Nat) (st : ASt) : Option Nat × ASt :=
  arena_alloc_align size MAX_ALIGN st

/-- `arena_zalloc_align`: the `memset` clears caller-visible memory only,
so the allocator state coincides with `arena_alloc_align`. -/
def arena_zalloc_align (size align : Nat) (st : ASt) : Option Nat × ASt :=
  arena_alloc_align size align st

/-- The walk of `arena_reset`: follow `prev` links, freeing each block and
deducting its capacity, until the oldest block. -/
def resetWalk (b : ArenaBlock) (prevs : List ArenaBlock) (reserved : Nat) :
    ArenaBlock × Nat :=
  match prevs with
  | [] => (b, reserved)
  | p :: ps => resetWalk p ps (reserved - b.capacity)

/-- `arena_reset`: keep only the oldest block, with offset zeroed. -/
def arena_reset (a : Arena) : Arena :=
  match a.blocks with
  | [] => a
  | b :: rest =>
    match resetWalk b rest a.reserved with
    | (last, res) =>
      ⟨[{ last with offset := 0 }], a.default_block_size, res⟩

/-- `arena_mark`: capture the current block identity and offset
(`NULL` and `0` when the chain is empty). -/
def arena_mark (a : Arena) : ArenaMark :=
  match a.blocks with
  | [] => ⟨none, 0⟩
  | b :: _ => ⟨some b.id, b.offset⟩

/-- The walk of `arena_release`: free blocks (deducting capacities) until
the marked block is at the head or the chain is exhausted. -/
def releaseWalk (m : ArenaMark) (blocks : List ArenaBlock) (reserved : Nat) :
    List ArenaBlock × Nat :=
  match blocks with
  | [] => ([], reserved)
  | b :: rest =>
    if m.block = some b.id then (b :: rest, reserved)
    else releaseWalk m rest (reserved - b.capacity)

/-- `arena_release`: walk back to the marked block; when found, restore
its offset from the mark, clamped to the capacity. -/
def arena_release (m : ArenaMark) (a : Arena) : Arena :=
  match a.blocks with
  | [] => a
  | _ :: _ =>
    match releaseWalk m a.blocks a.reserved with
    | ([], res) => ⟨[], a.default_block_size, res⟩
    | (b :: rest, res) =>
      ⟨{ b with offset := if m.offset ≤ b.capacity then m.offset else 0 }
          :: rest,
        a.default_block_size, res⟩

/-- `arena_bytes_reserved`. -/
def arena_bytes_reserved (a : Arena) : Nat := a.reserved

/-- `arena_bytes_used`: sum of offsets over the live chain. -/
def arena_bytes_used (a : Arena) : Nat :=
  (a.blocks.map fun b => b.offset).sum

/-- `arena_strdup`: `s` models the bytes of the C string before its
terminator, so the allocation request is `strlen(s) + 1 = s.length + 1`
with `_Alignof(char) = 1`; the `memcpy` writes caller-visible memory. -/
def arena_strdup (s : List Nat) (st : ASt) : Option Nat × ASt :=
  arena_alloc_align (s.length + 1) 1 st

/-- Sum of the capacities of a chain. -/
def sumCaps (bs : List ArenaBlock) : Nat :=
  (bs.map fun b => b.capacity).sum

/-- A sequence of `arena_alloc_align` calls; the returned list collects the
result of each call in order. -/
def runAllocs : List (Nat × Nat) → ASt → List (Option Nat) × ASt
  | [], st => ([], st)
  | (s, al) :: rs, st =>
    match arena_alloc_align s al st with
    | (p, st2) =>
      match runAllocs rs st2 with
      | (ps, st3) => (p :: ps, st3)

/-- One operation of the public API, for whole-trace statements. -/
inductive Op where
  | opInit (n : Nat)
  | opAlloc (size align : Nat)
  | opZalloc (size align : Nat)
  | opStrdup (s : List Nat)
  | opMark
  | opRelease (m : ArenaMark)
  | opReset
  | opDestroy
deriving Repr, DecidableEq

/-- The state transition of one operation (returned pointers dropped). -/
def stepOp (st : ASt) (o : Op) : ASt :=
  match o with
  | .opInit n => arena_init n st
  | .opAlloc size align => (arena_alloc_align size align st).2
  | .opZalloc size align => (arena_zalloc_align size align st).2
  | .opStrdup s => (arena_strdup s st).2
  | .opMark => st
  | .opRelease m => ⟨arena_release m st.arena, st.nextId, st.oracle⟩
  | .opReset => ⟨arena_reset st.arena, st.nextId, st.oracle⟩
  | .opDestroy => arena_destroy st

/-- Run a list of operations from a state. -/
def runOps (ops : List Op) (st : ASt) : ASt := ops.foldl stepOp st

/-- The zero-valued `Arena` of the source, with a given `malloc` oracle. -/
def zeroASt (oracle : List (Option Nat)) : ASt := ⟨⟨[], 0, 0⟩, 0, oracle⟩

end ArenaModel

namespace ArenaModel

/-- C7: `allocate(0, align)` returns `NULL` (an absent result) and leaves
the entire arena state — in particular `bytes_used()` and
`bytes_reserved()` — unchanged, for every alignment and every state. -/
theorem C7_zero_size_noop (align : Nat) (st : ASt) :
    arena_alloc_align 0 align st = (none, st) ∧
    arena_bytes_used (arena_alloc_align 0 align st).2.arena =
      arena_bytes_used st.arena ∧
    arena_bytes_reserved (arena_alloc_align 0 align st).2.arena =
      arena_bytes_reserved st.arena := by
  have h : arena_alloc_align 0 align st = (none, st) := by
    simp [arena_alloc_align]
  exact ⟨h, by rw [h], by rw [h]⟩

/-- C2 fails on the code: `arena__align_up_ptr` adds `align - p % align`
without a zero-remainder case, so for `p = 16`, `align = 8` — where `p`
is already a multiple of `8` and the claim requires the result `16` — it
returns `24`; and at `p = UINTPTR_MAX`, `align = 1` — where the smallest
multiple `≥ p` is `p` itself, so no overflow occurs — it signals failure.
The spec's own Scenario A (two `allocate(100, 1)` calls yielding adjacent
addresses) contradicts this behaviour, so the missing `rem == 0` case is
a slip in the code. -/
theorem C2_align_up_overshoots_aligned_base :
    arena__align_up_ptr 16 8 = 24 ∧ 16 % 8 = 0 ∧
    arena__align_up_ptr UINTPTR_MAX 1 = 0 ∧ UINTPTR_MAX % 1 = 0 := by
  decide

/-- C1 fails on the code: after `init(64)`, `allocate(1000, 1)` does
create and link a new block and charge exactly its capacity to
`reserved`, but line 99 of the source
(`size_t min_needed = size = (align ? (align - 1) : 0);`) assigns to
`size`, so the new block is sized `max(64, 0) = 64` — not
`max(64, 1000 + slack) ≥ 1000` — and the retry "succeeds" with the
overwritten size `0`: the call returns a pointer while the block's offset
advances only to `1`, so no 1000-byte region exists.  The comment and the
overflow guard on lines 96–97 show the intended expression was
`size + (align - 1)`. -/
theorem C1_scenarioB_new_block_undersized :
    (arena_alloc_align 1000 1
        (arena_init 64 ⟨⟨[], 0, 0⟩, 0, [some 4096, some 8192]⟩)).1
      = some 8193 ∧
    (arena_alloc_align 1000 1
        (arena_init 64 ⟨⟨[], 0, 0⟩, 0, [some 4096, some 8192]⟩)).2.arena
      = ⟨[⟨1, 8192, 64, 1⟩, ⟨0, 4096, 64, 0⟩], 64, 128⟩ := by
  decide

/-- C9 fails on the code: duplicating a 19-byte string (request
`strlen + 1 = 20` bytes) into an arena whose only block has capacity `8`
"succeeds" — `arena_strdup` returns a pointer — yet the backing block has
capacity `8 < 20` and its offset advances only to `1`, so the promised
20-byte region neither fits its block (the `memcpy` of 20 bytes
overflows the 8-byte buffer) nor is reserved: the very next
`allocate(4, 1)` returns an address inside the string's 20-byte region.
Root cause is the same `size`-overwriting assignment on line 99. -/
theorem C9_strdup_region_not_reserved :
    (arena_strdup (List.replicate 19 65)
        ⟨⟨[⟨0, 4096, 8, 0⟩], 8, 8⟩, 1, [some 8192]⟩).1 = some 8193 ∧
    (List.replicate 19 (65 : Nat)).length + 1 = 20 ∧
    (arena_strdup (List.replicate 19 65)
        ⟨⟨[⟨0, 4096, 8, 0⟩], 8, 8⟩, 1, [some 8192]⟩).2.arena.blocks
      = [⟨1, 8192, 8, 1⟩, ⟨0, 4096, 8, 0⟩] ∧
    (arena_alloc_align 4 1
        (arena_strdup (List.replicate 19 65)
          ⟨⟨[⟨0, 4096, 8, 0⟩], 8, 8⟩, 1, [some 8192]⟩).2).1 = some 8194 ∧
    8193 ≤ 8194 ∧ 8194 < 8193 + 20 := by
  decide

/-- C3 as stated is false on the code.  Two failing calls mutate state:
a failed `allocate(10, 0)` on an arena with no current block overwrites
`default_block_size` from `5` to `10` (the `arena_init` re-run writes the
hint before `malloc`'s outcome is known); and a failed `allocate(100, 8)`
on an arena whose 2-byte block cannot fit the request creates and links
an intermediate 7-byte block (sized by the bugged line 99) and leaves
`reserved` at `9` instead of `2` when the next `malloc` fails. -/
theorem C3_failed_alloc_mutates_state :
    (arena_alloc_align 10 0 ⟨⟨[], 5, 0⟩, 0, [none]⟩
      = (none, ⟨⟨[], 10, 0⟩, 0, []⟩)) ∧
    (arena_alloc_align 100 8 ⟨⟨[⟨0, 16, 2, 0⟩], 2, 2⟩, 1, [some 32, none]⟩
      = (none, ⟨⟨[⟨1, 32, 7, 0⟩, ⟨0, 16, 2, 0⟩], 2, 9⟩, 2, []⟩)) := by
  decide

end ArenaModel
namespace ArenaModel

theorem sumCaps_nil : sumCaps [] = 0 := rfl

theorem sumCaps_cons (b : ArenaBlock) (bs : List ArenaBlock) :
    sumCaps (b :: bs) = b.capacity + sumCaps bs := by simp [sumCaps]

theorem sumCaps_append (xs ys : List ArenaBlock) :
    sumCaps (xs ++ ys) = sumCaps xs + sumCaps ys := by simp [sumCaps]

theorem loopStep_fit_le {size align d : Nat} {b : ArenaBlock}
    {al off : Nat} (h : loopStep size align d b = .fit al off) :
    off + size ≤ b.capacity := by
  simp only [loopStep] at h
  split_ifs at h with h1 h2 h3 h4
  all_goals cases h
  omega

theorem allocLoop_spec :
    ∀ (o : List (Option Nat)) (size align d res nid : Nat)
      (b : ArenaBlock) (bs : List ArenaBlock),
      ∃ fresh b2,
        (allocLoop size align ⟨b :: bs, d, res⟩ nid o).2.1.blocks
            = fresh ++ b2 :: bs ∧
        (allocLoop size align ⟨b :: bs, d, res⟩ nid o).2.1.default_block_size
            = d ∧
        (allocLoop size align ⟨b :: bs, d, res⟩ nid o).2.1.reserved
            = res + sumCaps fresh ∧
        (allocLoop size align ⟨b :: bs, d, res⟩ nid o).2.2.1
            = nid + fresh.length ∧
        b2.id = b.id ∧ b2.capacity = b.capacity ∧ b2.base = b.base ∧
        (b2.offset = b.offset ∨ b2.offset ≤ b2.capacity) ∧
        ((allocLoop size align ⟨b :: bs, d, res⟩ nid o).1 = none → b2 = b) ∧
        (∀ f ∈ fresh, nid ≤ f.id ∧ f.offset ≤ f.capacity) := by
  intro o
  induction o with
  | nil =>
    intro size align d res nid b bs
    simp only [allocLoop]
    cases hstep : loopStep size align d b with
    | fail =>
      exact ⟨[], b, by simp, rfl, by simp [sumCaps], by simp, rfl, rfl,
        rfl, Or.inl rfl, fun _ => rfl, by simp⟩
    | fit al off =>
      dsimp only
      refine ⟨[], { b with offset := off + size }, by simp, rfl,
        by simp [sumCaps], by simp, rfl, rfl, rfl,
        Or.inr ?_, ?_, by simp⟩
      · have h' := loopStep_fit_le hstep
        exact h'
      · intro h
        exact absurd h (by simp)
    | grow size2 c =>
      exact ⟨[], b, by simp, rfl, by simp [sumCaps], by simp, rfl, rfl,
        rfl, Or.inl rfl, fun _ => rfl, by simp⟩
  | cons mo orest ih =>
    intro size align d res nid b bs
    simp only [allocLoop]
    cases hstep : loopStep size align d b with
    | fail =>
      exact ⟨[], b, by simp, rfl, by simp [sumCaps], by simp, rfl, rfl,
        rfl, Or.inl rfl, fun _ => rfl, by simp⟩
    | fit al off =>
      dsimp only
      refine ⟨[], { b with offset := off + size }, by simp, rfl,
        by simp [sumCaps], by simp, rfl, rfl, rfl,
        Or.inr ?_, ?_, by simp⟩
      · have h' := loopStep_fit_le hstep
        exact h'
      · intro h
        exact absurd h (by simp)
    | grow size2 c =>
      cases mo with
      | none =>
        exact ⟨[], b, by simp, rfl, by simp [sumCaps], by simp, rfl, rfl,
          rfl, Or.inl rfl, fun _ => rfl, by simp⟩
      | some bb =>
        dsimp only
        obtain ⟨fresh, b2, hbl, hd, hres, hnid, hid, hcap, hbase, hoff,
          hnone, hfr⟩ :=
          ih size2 align d (res + c) (nid + 1) ⟨nid, bb % U, c, 0⟩ (b :: bs)
        dsimp only at hid hcap hbase hoff hres hnid
        refine ⟨fresh ++ [b2], b, ?_, hd, ?_, ?_, rfl, rfl, rfl,
          Or.inl rfl, fun _ => rfl, ?_⟩
        · rw [hbl]
          simp
        · rw [hres, sumCaps_append, sumCaps_cons, sumCaps_nil]
          omega
        · rw [hnid]
          simp only [List.length_append, List.length_cons, List.length_nil]
          omega
        · intro f hf
          rcases List.mem_append.1 hf with hf | hf
          · have h2 := hfr f hf
            exact ⟨by omega, h2.2⟩
          · have hfe : f = b2 := by simpa using hf
            subst hfe
            refine ⟨by omega, ?_⟩
            rcases hoff with h | h
            · rw [h]
              exact Nat.zero_le _
            · exact h
end ArenaModel

namespace ArenaModel

theorem arena_alloc_align_spec (size align : Nat) (st : ASt) (b : ArenaBlock)
    (bs : List ArenaBlock) (hb : st.arena.blocks = b :: bs) :
    ∃ fresh b2,
      (arena_alloc_align size align st).2.arena.blocks = fresh ++ b2 :: bs ∧
      (arena_alloc_align size align st).2.arena.default_block_size
          = st.arena.default_block_size ∧
      (arena_alloc_align size align st).2.arena.reserved
          = st.arena.reserved + sumCaps fresh ∧
      (arena_alloc_align size align st).2.nextId = st.nextId + fresh.length ∧
      b2.id = b.id ∧ b2.capacity = b.capacity ∧ b2.base = b.base ∧
      (b2.offset = b.offset ∨ b2.offset ≤ b2.capacity) ∧
      ((arena_alloc_align size align st).1 = none → b2 = b) ∧
      (∀ f ∈ fresh, st.nextId ≤ f.id ∧ f.offset ≤ f.capacity) := by
  obtain ⟨⟨ab, ad, ares⟩, nid, o⟩ := st
  dsimp only at hb
  subst hb
  by_cases hs : size = 0
  · subst hs
    simp only [arena_alloc_align, if_pos rfl]
    exact ⟨[], b, by simp, rfl, by simp [sumCaps], by simp, rfl, rfl, rfl,
      Or.inl rfl, fun _ => rfl, by simp⟩
  · simp only [arena_alloc_align, if_neg hs, List.isEmpty_cons,
      Bool.false_eq_true, if_false]
    obtain ⟨fresh, b2, h1, h2, h3, h4, h5, h6, h7, h8, h9, h10⟩ :=
      allocLoop_spec o size align ad ares nid b bs
    rcases hL : allocLoop size align ⟨b :: bs, ad, ares⟩ nid o
      with ⟨p, a2, nid2, o2⟩
    rw [hL] at h1 h2 h3 h4 h9
    exact ⟨fresh, b2, h1, h2, h3, h4, h5, h6, h7, h8, h9, h10⟩

end ArenaModel

namespace ArenaModel

theorem releaseWalk_not_found (m : ArenaMark) :
    ∀ (bs : List ArenaBlock) (res : Nat),
      (∀ b ∈ bs, m.block ≠ some b.id) →
      releaseWalk m bs res = ([], res - sumCaps bs) := by
  intro bs
  induction bs with
  | nil =>
    intro res _
    simp [releaseWalk, sumCaps]
  | cons b bs ih =>
    intro res h
    have hb : m.block ≠ some b.id := h b (by simp)
    simp only [releaseWalk, if_neg hb]
    rw [ih (res - b.capacity) (fun x hx => h x (by simp [hx]))]
    have hsub : res - b.capacity - sumCaps bs = res - sumCaps (b :: bs) := by
      rw [sumCaps_cons]
      omega
    rw [hsub]

theorem releaseWalk_found (m : ArenaMark) (i : Nat) (hm : m.block = some i) :
    ∀ (pre : List ArenaBlock) (b : ArenaBlock) (bs : List ArenaBlock)
      (res : Nat),
      (∀ f ∈ pre, f.id ≠ i) → b.id = i →
      releaseWalk m (pre ++ b :: bs) res = (b :: bs, res - sumCaps pre) := by
  intro pre
  induction pre with
  | nil =>
    intro b bs res _ hbi
    simp only [List.nil_append, releaseWalk]
    rw [if_pos (by rw [hm, hbi])]
    simp [sumCaps]
  | cons p ps ih =>
    intro b bs res hpre hbi
    have hp : m.block ≠ some p.id := by
      rw [hm]
      intro hc
      injection hc with hc
      exact hpre p (by simp) hc.symm
    simp only [List.cons_append, releaseWalk, if_neg hp, List.append_eq]
    rw [ih b bs (res - p.capacity) (fun f hf => hpre f (by simp [hf])) hbi]
    have hsub : res - p.capacity - sumCaps ps = res - sumCaps (p :: ps) := by
      rw [sumCaps_cons]
      omega
    rw [hsub]

theorem releaseWalk_wf (m : ArenaMark) :
    ∀ (bs : List ArenaBlock) (res : Nat),
      (∀ x ∈ (releaseWalk m bs res).1, x ∈ bs) ∧
      (res = sumCaps bs →
        (releaseWalk m bs res).2 = sumCaps (releaseWalk m bs res).1) := by
  intro bs
  induction bs with
  | nil =>
    intro res
    simp [releaseWalk]
  | cons b bs ih =>
    intro res
    by_cases hb : m.block = some b.id
    · simp [releaseWalk, hb]
    · simp only [releaseWalk, if_neg hb]
      refine ⟨fun x hx => by simp [(ih (res - b.capacity)).1 x hx], fun hres => ?_⟩
      apply (ih (res - b.capacity)).2
      rw [hres, sumCaps_cons]
      omega

theorem arena_release_eq_cons (m : ArenaMark) (a : Arena) (x : ArenaBlock)
    (xs : List ArenaBlock) (hab : a.blocks = x :: xs) (b : ArenaBlock)
    (rest : List ArenaBlock) (res' : Nat)
    (hw : releaseWalk m (x :: xs) a.reserved = (b :: rest, res')) :
    arena_release m a =
      ⟨{ b with offset := if m.offset ≤ b.capacity then m.offset else 0 }
          :: rest,
        a.default_block_size, res'⟩ := by
  unfold arena_release
  rw [hab]
  dsimp only
  rw [hw]

theorem arena_release_eq_nil_result (m : ArenaMark) (a : Arena)
    (x : ArenaBlock) (xs : List ArenaBlock) (hab : a.blocks = x :: xs)
    (res' : Nat) (hw : releaseWalk m (x :: xs) a.reserved = ([], res')) :
    arena_release m a = ⟨[], a.default_block_size, res'⟩ := by
  unfold arena_release
  rw [hab]
  dsimp only
  rw [hw]

theorem resetWalk_eq :
    ∀ (bs : List ArenaBlock) (b : ArenaBlock) (res : Nat),
      resetWalk b bs res
        = ((b :: bs).getLast (by simp),
           res - sumCaps ((b :: bs).dropLast)) := by
  intro bs
  induction bs with
  | nil =>
    intro b res
    simp [resetWalk, sumCaps]
  | cons p ps ih =>
    intro b res
    simp only [resetWalk]
    rw [ih p (res - b.capacity)]
    simp only [Prod.mk.injEq]
    constructor
    · exact (List.getLast_cons (by simp)).symm
    · rw [List.dropLast_cons₂, sumCaps_cons]
      omega

theorem arena_reset_eq (a : Arena) (b : ArenaBlock) (bs : List ArenaBlock)
    (hab : a.blocks = b :: bs) :
    arena_reset a
      = ⟨[{ (b :: bs).getLast (by simp) with offset := 0 }],
          a.default_block_size,
          a.reserved - sumCaps ((b :: bs).dropLast)⟩ := by
  unfold arena_reset
  rw [hab]
  dsimp only
  rw [resetWalk_eq]

/-- C5: for an arena with at least one live block whose `reserved` is the
sum of the live capacities, `reset` leaves exactly one block — the oldest
in the chain — with offset `0` (hence `bytes_used() = 0`), and
`bytes_reserved()` equals that block's capacity. -/
theorem C5_reset_keeps_oldest_block (a : Arena) (b : ArenaBlock)
    (bs : List ArenaBlock) (hab : a.blocks = b :: bs)
    (hres : a.reserved = sumCaps a.blocks) :
    (arena_reset a).blocks
        = [{ (b :: bs).getLast (by simp) with offset := 0 }] ∧
    arena_bytes_used (arena_reset a) = 0 ∧
    arena_bytes_reserved (arena_reset a)
        = ((b :: bs).getLast (by simp)).capacity := by
  rw [arena_reset_eq a b bs hab]
  refine ⟨rfl, by simp [arena_bytes_used], ?_⟩
  simp only [arena_bytes_reserved]
  rw [hres, hab]
  have hsum : sumCaps (b :: bs)
      = sumCaps ((b :: bs).dropLast)
        + ((b :: bs).getLast (by simp)).capacity := by
    conv_lhs => rw [← List.dropLast_append_getLast (l := b :: bs) (by simp)]
    rw [sumCaps_append, sumCaps_cons, sumCaps_nil]
    omega
  omega

/-- Witness for C5 at a two-block arena. -/
theorem C5_reset_keeps_oldest_block_witness :
    (arena_reset ⟨[⟨1, 100, 8, 3⟩, ⟨0, 50, 4, 2⟩], 4, 12⟩).blocks
        = [⟨0, 50, 4, 0⟩] ∧
    arena_bytes_used (arena_reset ⟨[⟨1, 100, 8, 3⟩, ⟨0, 50, 4, 2⟩], 4, 12⟩)
        = 0 ∧
    arena_bytes_reserved
        (arena_reset ⟨[⟨1, 100, 8, 3⟩, ⟨0, 50, 4, 2⟩], 4, 12⟩) = 4 :=
  C5_reset_keeps_oldest_block ⟨[⟨1, 100, 8, 3⟩, ⟨0, 50, 4, 2⟩], 4, 12⟩
    ⟨1, 100, 8, 3⟩ [⟨0, 50, 4, 2⟩] rfl (by decide)

/-- C8: releasing a mark whose block is no longer in the chain frees every
block of the remaining chain (leaving no current block), decrements
`reserved` by each freed block's capacity, skips offset restoration
(there is no block left to restore), and — the walk being total — does
not crash. -/
theorem C8_stale_mark_release (a : Arena) (m : ArenaMark) (i : Nat)
    (hm : m.block = some i) (hni : ∀ b ∈ a.blocks, b.id ≠ i) :
    (arena_release m a).blocks = [] ∧
    (arena_release m a).reserved = a.reserved - sumCaps a.blocks ∧
    (arena_release m a).default_block_size = a.default_block_size := by
  rcases hab : a.blocks with _ | ⟨x, xs⟩
  · unfold arena_release
    rw [hab]
    dsimp only
    exact ⟨hab, by simp [sumCaps], rfl⟩
  · have hcond : ∀ b ∈ x :: xs, m.block ≠ some b.id := by
      intro b hbmem
      rw [hm]
      intro hc
      injection hc with hc
      exact hni b (by rw [hab]; exact hbmem) hc.symm
    have hwalk := releaseWalk_not_found m (x :: xs) a.reserved hcond
    rw [arena_release_eq_nil_result m a x xs hab _ hwalk]
    exact ⟨rfl, rfl, rfl⟩

/-- Witness for C8: a stale mark (block id `7` absent) on a one-block
arena. -/
theorem C8_stale_mark_release_witness :
    (arena_release ⟨some 7, 1⟩ ⟨[⟨0, 16, 4, 2⟩], 4, 4⟩).blocks = [] ∧
    (arena_release ⟨some 7, 1⟩ ⟨[⟨0, 16, 4, 2⟩], 4, 4⟩).reserved
        = 4 - sumCaps [⟨0, 16, 4, 2⟩] ∧
    (arena_release ⟨some 7, 1⟩ ⟨[⟨0, 16, 4, 2⟩], 4, 4⟩).default_block_size
        = 4 :=
  C8_stale_mark_release ⟨[⟨0, 16, 4, 2⟩], 4, 4⟩ ⟨some 7, 1⟩ 7 rfl (by decide)

end ArenaModel

namespace ArenaModel

theorem arena_release_eq_of_walk (m : ArenaMark) (a : Arena) (b : ArenaBlock)
    (rest : List ArenaBlock) (res' : Nat) (hne : a.blocks ≠ [])
    (hw : releaseWalk m a.blocks a.reserved = (b :: rest, res')) :
    arena_release m a =
      ⟨{ b with offset := if m.offset ≤ b.capacity then m.offset else 0 }
          :: rest,
        a.default_block_size, res'⟩ := by
  rcases hab : a.blocks with _ | ⟨x, xs⟩
  · exact absurd hab hne
  · rw [hab] at hw
    exact arena_release_eq_cons m a x xs hab b rest res' hw

theorem arena_release_none_blocks (a : Arena) :
    (arena_release ⟨none, 0⟩ a).blocks = [] := by
  rcases hab : a.blocks with _ | ⟨x, xs⟩
  · unfold arena_release
    rw [hab]
    dsimp only
    exact hab
  · have hwalk := releaseWalk_not_found ⟨none, 0⟩ (x :: xs) a.reserved
      (by intro b _; simp)
    rw [arena_release_eq_nil_result ⟨none, 0⟩ a x xs hab _ hwalk]

theorem alloc_frame_step (size align : Nat) (st : ASt) (mb : ArenaBlock)
    (bs news : List ArenaBlock) (b2 : ArenaBlock)
    (hbl : st.arena.blocks = news ++ b2 :: bs)
    (hid : b2.id = mb.id) (hcap : b2.capacity = mb.capacity)
    (hbase : b2.base = mb.base)
    (hnews : ∀ f ∈ news, mb.id < f.id)
    (hnid : mb.id < st.nextId) :
    ∃ news2 b3,
      (arena_alloc_align size align st).2.arena.blocks = news2 ++ b3 :: bs ∧
      b3.id = mb.id ∧ b3.capacity = mb.capacity ∧ b3.base = mb.base ∧
      (∀ f ∈ news2, mb.id < f.id) ∧
      mb.id < (arena_alloc_align size align st).2.nextId := by
  cases news with
  | nil =>
    obtain ⟨fresh, b3, h1, _, _, h4, h5, h6, h7, _, _, h10⟩ :=
      arena_alloc_align_spec size align st b2 bs (by simpa using hbl)
    refine ⟨fresh, b3, h1, by rw [h5, hid], by rw [h6, hcap],
      by rw [h7, hbase], ?_, ?_⟩
    · exact fun f hf => lt_of_lt_of_le hnid (h10 f hf).1
    · rw [h4]
      omega
  | cons n ns =>
    obtain ⟨fresh, n2, h1, _, _, h4, h5, _, _, _, _, h10⟩ :=
      arena_alloc_align_spec size align st n (ns ++ b2 :: bs)
        (by simpa using hbl)
    refine ⟨fresh ++ n2 :: ns, b2, ?_, hid, hcap, hbase, ?_, ?_⟩
    · rw [h1]
      simp
    · intro f hf
      rcases List.mem_append.1 hf with hf | hf
      · exact lt_of_lt_of_le hnid (h10 f hf).1
      · rcases List.mem_cons.1 hf with hf | hf
        · rw [hf, h5]
          exact hnews n (by simp)
        · exact hnews f (by simp [hf])
    · rw [h4]
      omega

theorem runAllocs_frame (reqs : List (Nat × Nat)) :
    ∀ (st : ASt) (mb : ArenaBlock) (bs news : List ArenaBlock)
      (b2 : ArenaBlock),
      st.arena.blocks = news ++ b2 :: bs →
      b2.id = mb.id → b2.capacity = mb.capacity → b2.base = mb.base →
      (∀ f ∈ news, mb.id < f.id) → mb.id < st.nextId →
      ∃ news2 b3,
        (runAllocs reqs st).2.arena.blocks = news2 ++ b3 :: bs ∧
        b3.id = mb.id ∧ b3.capacity = mb.capacity ∧ b3.base = mb.base ∧
        (∀ f ∈ news2, mb.id < f.id) ∧
        mb.id < (runAllocs reqs st).2.nextId := by
  induction reqs with
  | nil =>
    intro st mb bs news b2 hbl hid hcap hbase hnews hnid
    exact ⟨news, b2, by simpa [runAllocs] using hbl, hid, hcap, hbase,
      hnews, by simpa [runAllocs] using hnid⟩
  | cons r rs ih =>
    obtain ⟨s, al⟩ := r
    intro st mb bs news b2 hbl hid hcap hbase hnews hnid
    obtain ⟨news2, b3, h1, h2, h3, h4, h5, h6⟩ :=
      alloc_frame_step s al st mb bs news b2 hbl hid hcap hbase hnews hnid
    have hrun : (runAllocs ((s, al) :: rs) st).2
        = (runAllocs rs (arena_alloc_align s al st).2).2 := by
      rcases hA : arena_alloc_align s al st with ⟨p, st2⟩
      rcases hR : runAllocs rs st2 with ⟨ps, st3⟩
      simp [runAllocs, hA, hR]
    rw [hrun]
    exact ih (arena_alloc_align s al st).2 mb bs news2 b3 h1 h2 h3 h4 h5 h6

/-- C4: for a mark taken on a well-formed arena (cursors within
capacities, block ids below the fresh-id counter) followed by any
sequence of successful allocations and no intervening reset,
`bytes_used()` right after `release(mark)` equals `bytes_used()` at the
moment of `mark()`; moreover with a current block present the whole chain
— in particular the marked block with its captured offset — is restored
exactly. -/
theorem C4_mark_release_restores_used (st : ASt) (reqs : List (Nat × Nat))
    (hwf : ∀ b ∈ st.arena.blocks, b.offset ≤ b.capacity ∧ b.id < st.nextId)
    (_hsucc : ∀ p ∈ (runAllocs reqs st).1, p.isSome = true) :
    arena_bytes_used
        (arena_release (arena_mark st.arena) (runAllocs reqs st).2.arena)
      = arena_bytes_used st.arena ∧
    (st.arena.blocks ≠ [] →
      (arena_release (arena_mark st.arena)
          (runAllocs reqs st).2.arena).blocks = st.arena.blocks) := by
  rcases hab : st.arena.blocks with _ | ⟨mb, bs⟩
  · have hm : arena_mark st.arena = ⟨none, 0⟩ := by
      unfold arena_mark
      rw [hab]
    rw [hm]
    constructor
    · have h1 := arena_release_none_blocks (runAllocs reqs st).2.arena
      unfold arena_bytes_used
      rw [h1, hab]
    · intro hne
      exact absurd rfl hne
  · have hmb := hwf mb (by rw [hab]; simp)
    have hm : arena_mark st.arena = ⟨some mb.id, mb.offset⟩ := by
      unfold arena_mark
      rw [hab]
    obtain ⟨news, b2, h1, h2, h3, h4, h5, _⟩ :=
      runAllocs_frame reqs st mb bs [] mb (by simpa using hab) rfl rfl rfl
        (by simp) hmb.2
    have hwalk := releaseWalk_found ⟨some mb.id, mb.offset⟩ mb.id rfl news b2
      bs (runAllocs reqs st).2.arena.reserved
      (fun f hf => Nat.ne_of_gt (h5 f hf)) h2
    have hrel := arena_release_eq_of_walk ⟨some mb.id, mb.offset⟩
      (runAllocs reqs st).2.arena b2 bs _
      (by rw [h1]; simp) (by rw [h1]; exact hwalk)
    have hclamp :
        (if (⟨some mb.id, mb.offset⟩ : ArenaMark).offset ≤ b2.capacity
          then (⟨some mb.id, mb.offset⟩ : ArenaMark).offset else 0)
        = mb.offset := by
      dsimp only
      rw [if_pos (by rw [h3]; exact hmb.1)]
    have hhead : { b2 with offset := mb.offset } = mb := by
      cases mb
      cases b2
      simp_all
    rw [hm, hrel, hclamp, hhead]
    exact ⟨by unfold arena_bytes_used; rw [hab], fun _ => rfl⟩

/-- Witness for C4: one-block arena, one successful 8-byte allocation
between mark and release. -/
theorem C4_mark_release_restores_used_witness :
    arena_bytes_used
        (arena_release
          (arena_mark (⟨⟨[⟨0, 4096, 64, 0⟩], 64, 64⟩, 1,
            [some 8192]⟩ : ASt).arena)
          (runAllocs [(8, 0)]
            ⟨⟨[⟨0, 4096, 64, 0⟩], 64, 64⟩, 1, [some 8192]⟩).2.arena)
      = arena_bytes_used
          (⟨⟨[⟨0, 4096, 64, 0⟩], 64, 64⟩, 1, [some 8192]⟩ : ASt).arena ∧
    ((⟨⟨[⟨0, 4096, 64, 0⟩], 64, 64⟩, 1, [some 8192]⟩ : ASt).arena.blocks
        ≠ [] →
      (arena_release
          (arena_mark (⟨⟨[⟨0, 4096, 64, 0⟩], 64, 64⟩, 1,
            [some 8192]⟩ : ASt).arena)
          (runAllocs [(8, 0)]
            ⟨⟨[⟨0, 4096, 64, 0⟩], 64, 64⟩, 1, [some 8192]⟩).2.arena).blocks
        = (⟨⟨[⟨0, 4096, 64, 0⟩], 64, 64⟩, 1, [some 8192]⟩ : ASt).arena.blocks) :=
  C4_mark_release_restores_used
    ⟨⟨[⟨0, 4096, 64, 0⟩], 64, 64⟩, 1, [some 8192]⟩ [(8, 0)]
    (by decide) (by decide)

end ArenaModel

namespace ArenaModel

theorem arena__new_block_some {cap nid : Nat} {o o2 : List (Option Nat)}
    {b : ArenaBlock} (h : arena__new_block cap nid o = (some b, o2)) :
    b.offset = 0 ∧ b.id = nid := by
  simp only [arena__new_block] at h
  rcases o with _ | ⟨mo, rest⟩
  · split_ifs at h <;> simp at h
  · cases mo with
    | none => split_ifs at h <;> simp at h
    | some bb =>
      split_ifs at h
      all_goals simp at h
      all_goals
        obtain ⟨hb, _⟩ := h
        rw [← hb]
        exact ⟨rfl, rfl⟩

theorem arena_init_wf (n : Nat) (st : ASt) :
    (∀ f ∈ (arena_init n st).arena.blocks, f.offset ≤ f.capacity) ∧
    (arena_init n st).arena.reserved
      = sumCaps (arena_init n st).arena.blocks := by
  unfold arena_init
  rcases hnb : arena__new_block n st.nextId st.oracle with ⟨ob, rest⟩
  cases ob with
  | none =>
    dsimp only
    exact ⟨by simp, by simp [sumCaps]⟩
  | some b =>
    dsimp only
    constructor
    · intro f hf
      simp only [List.mem_singleton] at hf
      subst hf
      rw [(arena__new_block_some hnb).1]
      exact Nat.zero_le _
    · simp [sumCaps]

theorem allocLoop_wf (o : List (Option Nat)) (size align d res nid : Nat)
    (b : ArenaBlock) (bs : List ArenaBlock)
    (hoff : ∀ f ∈ b :: bs, f.offset ≤ f.capacity)
    (hres : res = sumCaps (b :: bs)) :
    (∀ f ∈ (allocLoop size align ⟨b :: bs, d, res⟩ nid o).2.1.blocks,
        f.offset ≤ f.capacity) ∧
    (allocLoop size align ⟨b :: bs, d, res⟩ nid o).2.1.reserved
      = sumCaps (allocLoop size align ⟨b :: bs, d, res⟩ nid o).2.1.blocks := by
  obtain ⟨fresh, b2, h1, _, h3, _, _, hcap, _, hoffd, _, hfr⟩ :=
    allocLoop_spec o size align d res nid b bs
  constructor
  · intro f hf
    rw [h1] at hf
    rcases List.mem_append.1 hf with hf | hf
    · exact (hfr f hf).2
    · rcases List.mem_cons.1 hf with hf | hf
      · subst hf
        rcases hoffd with h | h
        · rw [h, hcap]
          exact hoff b (by simp)
        · exact h
      · exact hoff f (by simp [hf])
  · rw [h1, h3, hres]
    simp only [sumCaps_append, sumCaps_cons]
    omega

theorem arena_alloc_align_wf (size align : Nat) (st : ASt)
    (hoff : ∀ f ∈ st.arena.blocks, f.offset ≤ f.capacity)
    (hres : st.arena.reserved = sumCaps st.arena.blocks) :
    (∀ f ∈ (arena_alloc_align size align st).2.arena.blocks,
        f.offset ≤ f.capacity) ∧
    (arena_alloc_align size align st).2.arena.reserved
      = sumCaps (arena_alloc_align size align st).2.arena.blocks := by
  obtain ⟨⟨ab, ad, ares⟩, nid, o⟩ := st
  dsimp only at hoff hres
  by_cases hs : size = 0
  · subst hs
    simp only [arena_alloc_align, if_pos rfl]
    exact ⟨hoff, hres⟩
  · cases ab with
    | nil =>
      simp only [arena_alloc_align, if_neg hs, List.isEmpty_nil, if_true,
        arena_init]
      rcases hnb : arena__new_block
          (arena__max ad ((size + (if align = 0 then 0 else align)) % U))
          nid o with ⟨ob, rest⟩
      cases ob with
      | none =>
        dsimp only
        exact ⟨by simp, by simp [sumCaps]⟩
      | some nb =>
        dsimp only
        simp only [List.isEmpty_cons, Bool.false_eq_true, if_false]
        have hw := allocLoop_wf rest size align
          (if arena__max ad ((size + (if align = 0 then 0 else align)) % U)
              = 0
            then 1
            else arena__max ad
              ((size + (if align = 0 then 0 else align)) % U))
          nb.capacity (nid + 1) nb []
          (by
            intro f hf
            simp only [List.mem_singleton] at hf
            subst hf
            rw [(arena__new_block_some hnb).1]
            exact Nat.zero_le _)
          (by simp [sumCaps])
        rcases hL : allocLoop size align
            ⟨[nb], if arena__max ad
                ((size + (if align = 0 then 0 else align)) % U) = 0
              then 1
              else arena__max ad
                ((size + (if align = 0 then 0 else align)) % U),
              nb.capacity⟩ (nid + 1) rest with ⟨p, a2, nid2, o2⟩
        rw [hL] at hw
        exact hw
    | cons b bs =>
      simp only [arena_alloc_align, if_neg hs, List.isEmpty_cons,
        Bool.false_eq_true, if_false]
      rcases hL : allocLoop size align ⟨b :: bs, ad, ares⟩ nid o
        with ⟨p, a2, nid2, o2⟩
      have hw := allocLoop_wf o size align ad ares nid b bs hoff hres
      rw [hL] at hw
      exact hw

theorem sumCaps_dropLast_getLast (b : ArenaBlock) (bs : List ArenaBlock) :
    sumCaps (b :: bs)
      = sumCaps ((b :: bs).dropLast)
        + ((b :: bs).getLast (by simp)).capacity := by
  conv_lhs => rw [← List.dropLast_append_getLast (l := b :: bs) (by simp)]
  rw [sumCaps_append, sumCaps_cons, sumCaps_nil]
  omega

theorem arena_reset_wf (a : Arena)
    (hoff : ∀ f ∈ a.blocks, f.offset ≤ f.capacity)
    (hres : a.reserved = sumCaps a.blocks) :
    (∀ f ∈ (arena_reset a).blocks, f.offset ≤ f.capacity) ∧
    (arena_reset a).reserved = sumCaps (arena_reset a).blocks := by
  rcases hab : a.blocks with _ | ⟨b, bs⟩
  · unfold arena_reset
    rw [hab]
    dsimp only
    exact ⟨hoff, hres⟩
  · rw [arena_reset_eq a b bs hab]
    constructor
    · intro f hf
      simp only [List.mem_singleton] at hf
      subst hf
      exact Nat.zero_le _
    · dsimp only
      rw [hab] at hres
      have hsum := sumCaps_dropLast_getLast b bs
      simp only [sumCaps_cons, sumCaps_nil]
      omega

theorem arena_release_wf (m : ArenaMark) (a : Arena)
    (hoff : ∀ f ∈ a.blocks, f.offset ≤ f.capacity)
    (hres : a.reserved = sumCaps a.blocks) :
    (∀ f ∈ (arena_release m a).blocks, f.offset ≤ f.capacity) ∧
    (arena_release m a).reserved = sumCaps (arena_release m a).blocks := by
  rcases hab : a.blocks with _ | ⟨x, xs⟩
  · unfold arena_release
    rw [hab]
    dsimp only
    exact ⟨hoff, hres⟩
  · rw [hab] at hres
    have hw := releaseWalk_wf m (x :: xs) a.reserved
    rcases hWalk : releaseWalk m (x :: xs) a.reserved with ⟨bs', res'⟩
    rw [hWalk] at hw
    cases bs' with
    | nil =>
      rw [arena_release_eq_nil_result m a x xs hab res' hWalk]
      exact ⟨by simp, hw.2 hres⟩
    | cons b' rest' =>
      rw [arena_release_eq_of_walk m a b' rest' res' (by rw [hab]; simp)
        (by rw [hab]; exact hWalk)]
      constructor
      · intro f hf
        rcases List.mem_cons.1 hf with hf | hf
        · subst hf
          dsimp only
          split_ifs with hcl
          · exact hcl
          · exact Nat.zero_le _
        · refine hoff f ?_
          rw [hab]
          exact hw.1 f (by simp [hf])
      · dsimp only
        have h2 := hw.2 hres
        dsimp only at h2
        rw [h2, sumCaps_cons, sumCaps_cons]

theorem stepOp_wf (st : ASt) (op : Op)
    (hoff : ∀ f ∈ st.arena.blocks, f.offset ≤ f.capacity)
    (hres : st.arena.reserved = sumCaps st.arena.blocks) :
    (∀ f ∈ (stepOp st op).arena.blocks, f.offset ≤ f.capacity) ∧
    (stepOp st op).arena.reserved = sumCaps (stepOp st op).arena.blocks := by
  cases op with
  | opInit n => exact arena_init_wf n st
  | opAlloc s al => exact arena_alloc_align_wf s al st hoff hres
  | opZalloc s al => exact arena_alloc_align_wf s al st hoff hres
  | opStrdup s => exact arena_alloc_align_wf (s.length + 1) 1 st hoff hres
  | opMark => exact ⟨hoff, hres⟩
  | opRelease m => exact arena_release_wf m st.arena hoff hres
  | opReset => exact arena_reset_wf st.arena hoff hres
  | opDestroy => exact ⟨by simp [stepOp, arena_destroy],
      by simp [stepOp, arena_destroy, sumCaps]⟩

theorem runOps_wf (ops : List Op) :
    ∀ st : ASt,
      (∀ f ∈ st.arena.blocks, f.offset ≤ f.capacity) →
      st.arena.reserved = sumCaps st.arena.blocks →
      (∀ f ∈ (runOps ops st).arena.blocks, f.offset ≤ f.capacity) ∧
      (runOps ops st).arena.reserved
        = sumCaps (runOps ops st).arena.blocks := by
  induction ops with
  | nil =>
    intro st h1 h2
    exact ⟨h1, h2⟩
  | cons op ops ih =>
    intro st h1 h2
    have hstep := stepOp_wf st op h1 h2
    have hne : runOps (op :: ops) st = runOps ops (stepOp st op) := by
      simp [runOps]
    rw [hne]
    exact ih (stepOp st op) hstep.1 hstep.2

theorem sumOffsets_le_sumCaps (bs : List ArenaBlock)
    (h : ∀ f ∈ bs, f.offset ≤ f.capacity) :
    (bs.map fun f => f.offset).sum ≤ sumCaps bs := by
  induction bs with
  | nil => simp [sumCaps]
  | cons b bs ih =>
    simp only [List.map_cons, List.sum_cons, sumCaps_cons]
    exact Nat.add_le_add (h b (by simp)) (ih fun f hf => h f (by simp [hf]))

/-- C6: starting from the zero-valued arena, after every sequence of
operations (init, allocate, zero-allocate, strdup, mark, release, reset,
destroy) and for every `malloc` behaviour, `bytes_used() ≤
bytes_reserved()`, and `reserved` equals the sum of the capacities of the
live blocks. -/
theorem C6_accounting_invariant (ops : List Op)
    (oracle : List (Option Nat)) :
    arena_bytes_used (runOps ops (zeroASt oracle)).arena
      ≤ arena_bytes_reserved (runOps ops (zeroASt oracle)).arena ∧
    (runOps ops (zeroASt oracle)).arena.reserved
      = sumCaps (runOps ops (zeroASt oracle)).arena.blocks := by
  have h := runOps_wf ops (zeroASt oracle) (by simp [zeroASt])
    (by simp [zeroASt, sumCaps])
  refine ⟨?_, h.2⟩
  unfold arena_bytes_used arena_bytes_reserved
  rw [h.2]
  exact sumOffsets_le_sumCaps _ h.1

end ArenaModel

namespace ArenaModel

theorem alloc_empty_default (size align : Nat) (st : ASt)
    (hempty : st.arena.blocks = []) (hpos : 0 < size)
    (hnof : size + (if align = 0 then 0 else align) < U) :
    (arena_alloc_align size align st).2.arena.default_block_size
      = arena__max st.arena.default_block_size
          (size + (if align = 0 then 0 else align)) := by
  obtain ⟨⟨ab, ad, ares⟩, nid, o⟩ := st
  dsimp only at hempty ⊢
  subst hempty
  have hs : ¬size = 0 := by omega
  have hmod : (size + (if align = 0 then 0 else align)) % U
      = size + (if align = 0 then 0 else align) := Nat.mod_eq_of_lt hnof
  have hone : 1 ≤ size + (if align = 0 then 0 else align) :=
    le_trans hpos (Nat.le_add_right _ _)
  have hvpos : arena__max ad (size + (if align = 0 then 0 else align))
      ≠ 0 := by
    unfold arena__max
    split_ifs with h
    all_goals omega
  simp only [arena_alloc_align, if_neg hs, List.isEmpty_nil, if_true,
    arena_init]
  rcases hnb : arena__new_block
      (arena__max ad ((size + (if align = 0 then 0 else align)) % U))
      nid o with ⟨ob, rest⟩
  cases ob with
  | none =>
    dsimp only
    simp only [List.isEmpty_nil, if_true]
    rw [hmod, if_neg hvpos]
  | some nb =>
    dsimp only
    simp only [List.isEmpty_cons, Bool.false_eq_true, if_false]
    obtain ⟨fresh, b2, _, hdef, _, _, _, _, _, _, _, _⟩ :=
      allocLoop_spec rest size align
        (if arena__max ad ((size + (if align = 0 then 0 else align)) % U)
            = 0
          then 1
          else arena__max ad
            ((size + (if align = 0 then 0 else align)) % U))
        nb.capacity (nid + 1) nb []
    rcases hL : allocLoop size align
        ⟨[nb], if arena__max ad
            ((size + (if align = 0 then 0 else align)) % U) = 0
          then 1
          else arena__max ad
            ((size + (if align = 0 then 0 else align)) % U),
          nb.capacity⟩ (nid + 1) rest with ⟨p, a2, nid2, o2⟩
    rw [hL] at hdef
    dsimp only
    rw [hdef, hmod, if_neg hvpos]

/-- C10: an `allocate(size, align)` call on an arena with no current
block re-runs `arena_init` with `max(default_block_size, size + align)`
(the slack being `align` itself here, not `align - 1`), overwriting the
`default_block_size` hint with that value — for every `malloc` behaviour,
so in particular even when the new block's allocation fails (witness
below uses a failing `malloc`).  Stated under the no-overflow side
condition `size + align < 2^64` of the `size_t` sum. -/
theorem C10_first_alloc_overwrites_hint (st : ASt) (size align : Nat)
    (hempty : st.arena.blocks = []) (hpos : 0 < size)
    (hnof : size + (if align = 0 then 0 else align) < U) :
    (arena_alloc_align size align st).2.arena.default_block_size
      = arena__max st.arena.default_block_size
          (size + (if align = 0 then 0 else align)) :=
  alloc_empty_default size align st hempty hpos hnof

/-- Witness for C10: `allocate(1000, 1)` on an empty arena with hint `64`
and a failing `malloc` still overwrites the hint to `max(64, 1001)`. -/
theorem C10_first_alloc_overwrites_hint_witness :
    (arena_alloc_align 1000 1
        ⟨⟨[], 64, 0⟩, 0, [none]⟩).2.arena.default_block_size
      = arena__max 64 (1000 + (if (1 : Nat) = 0 then 0 else 1)) :=
  C10_first_alloc_overwrites_hint ⟨⟨[], 64, 0⟩, 0, [none]⟩ 1000 1 rfl
    (by decide) (by decide)

/-- C3 amended: a failed `allocate` with a current block present
preserves the pre-existing chain — every pre-existing block, its offset
included — and `default_block_size`, but blocks created during the failed
attempt remain linked on top of it with their capacities added to
`reserved`; a (failed or successful) `allocate` that found no current
block overwrites `default_block_size` with
`max(default_block_size, size + align)`. -/
theorem C3_amended_failed_alloc_frame :
    (∀ (size align : Nat) (st : ASt) (b : ArenaBlock)
        (bs : List ArenaBlock),
      st.arena.blocks = b :: bs →
      (arena_alloc_align size align st).1 = none →
      ∃ fresh,
        (arena_alloc_align size align st).2.arena.blocks
            = fresh ++ st.arena.blocks ∧
        (arena_alloc_align size align st).2.arena.reserved
            = st.arena.reserved + sumCaps fresh ∧
        (arena_alloc_align size align st).2.arena.default_block_size
            = st.arena.default_block_size) ∧
    (∀ (size align : Nat) (st : ASt),
      st.arena.blocks = [] → 0 < size →
      size + (if align = 0 then 0 else align) < U →
      (arena_alloc_align size align st).2.arena.default_block_size
        = arena__max st.arena.default_block_size
            (size + (if align = 0 then 0 else align))) := by
  constructor
  · intro size align st b bs hb hfail
    obtain ⟨fresh, b2, h1, h2, h3, _, _, _, _, _, h9, _⟩ :=
      arena_alloc_align_spec size align st b bs hb
    have hb2 := h9 hfail
    exact ⟨fresh, by rw [h1, hb2, ← hb], h3, h2⟩
  · intro size align st hempty hpos hnof
    exact alloc_empty_default size align st hempty hpos hnof

/-- Witness for the amended C3: the failing `allocate(100, 8)` of the
counterexample preserves the old chain under one new block, and the
failing `allocate(10, 0)` on an empty arena overwrites the hint. -/
theorem C3_amended_failed_alloc_frame_witness :
    (∃ fresh,
      (arena_alloc_align 100 8
          ⟨⟨[⟨0, 16, 2, 0⟩], 2, 2⟩, 1, [some 32, none]⟩).2.arena.blocks
        = fresh ++ (⟨⟨[⟨0, 16, 2, 0⟩], 2, 2⟩, 1,
            [some 32, none]⟩ : ASt).arena.blocks ∧
      (arena_alloc_align 100 8
          ⟨⟨[⟨0, 16, 2, 0⟩], 2, 2⟩, 1, [some 32, none]⟩).2.arena.reserved
        = (⟨⟨[⟨0, 16, 2, 0⟩], 2, 2⟩, 1,
            [some 32, none]⟩ : ASt).arena.reserved + sumCaps fresh ∧
      (arena_alloc_align 100 8
          ⟨⟨[⟨0, 16, 2, 0⟩], 2, 2⟩, 1,
            [some 32, none]⟩).2.arena.default_block_size
        = (⟨⟨[⟨0, 16, 2, 0⟩], 2, 2⟩, 1,
            [some 32, none]⟩ : ASt).arena.default_block_size) ∧
    (arena_alloc_align 10 0
        ⟨⟨[], 5, 0⟩, 0, [none]⟩).2.arena.default_block_size
      = arena__max 5 (10 + (if (0 : Nat) = 0 then 0 else 0)) :=
  ⟨C3_amended_failed_alloc_frame.1 100 8
      ⟨⟨[⟨0, 16, 2, 0⟩], 2, 2⟩, 1, [some 32, none]⟩ ⟨0, 16, 2, 0⟩ [] rfl
      (by decide),
    C3_amended_failed_alloc_frame.2 10 0 ⟨⟨[], 5, 0⟩, 0, [none]⟩ rfl
      (by decide) (by decide)⟩

end ArenaModel
